import Mathlib

set_option autoImplicit false

namespace ZmAidect

/-!
Shallow embedding of the zm-aidect shared-memory monitor client
(src/zoneminder.rs, src/zoneminder/shm.rs, src/zoneminder/db.rs,
src/main.rs).  Machine integers are modelled as `Nat`/`Int`, bytes as
`Nat`, `f32` values as `ℚ`, files as total byte functions `Nat → Nat`,
and panics/`Result` errors as `Option`/`Except`.
-/

/-! ## Layout resolver (src/zoneminder/shm.rs) -/

/-- Embeds the Rust struct `Type` from src/zoneminder/shm.rs: a scalar or
array type recorded as its byte size and alignment. (`Type` itself is not a
legal Lean identifier.) -/
structure Typ where
  size : Nat
  alignment : Nat
deriving DecidableEq, Repr

/-- Embeds `Type::array_of` from src/zoneminder/shm.rs: an array keeps the element
alignment and multiplies the size. -/
def Typ.arrayOf (t : Typ) (numElements : Nat) : Typ :=
  { size := t.size * numElements, alignment := t.alignment }

/-- Embeds `align_to` from src/zoneminder/shm.rs: round `offset` up to the next
multiple of `alignment`, leaving it unchanged when already aligned. -/
def alignTo (offset alignment : Nat) : Nat :=
  if offset % alignment = 0 then
    offset
  else
    offset + alignment - offset % alignment

/-- Embeds `ParsedField` from src/zoneminder/shm.rs. -/
structure ParsedField where
  name : String
  typ : Typ
deriving DecidableEq, Repr

/-- Embeds `Field` from src/zoneminder/shm.rs: a parsed field with its resolved
offset. -/
structure Field where
  name : String
  offset : Nat
  typ : Typ
deriving DecidableEq, Repr

/-- Embeds `ParsedStruct` from src/zoneminder/shm.rs. -/
structure ParsedStruct where
  name : String
  fields : List ParsedField
deriving DecidableEq, Repr

/-- Embeds `Struct` from src/zoneminder/shm.rs. -/
structure Struct where
  name : String
  size : Nat
  fields : List Field
deriving DecidableEq, Repr

/-- The loop body of `ParsedStruct::calculate_offsets`
(src/zoneminder/shm.rs:117-137): starting from cursor `offset`, align the
cursor for each field, record the field offset, and advance the cursor by
the field size.  Returns the final cursor and the resolved fields. -/
def calcFields (offset : Nat) : List ParsedField → Nat × List Field
  | [] => (offset, [])
  | pf :: rest =>
    let o := alignTo offset pf.typ.alignment
    let r := calcFields (o + pf.typ.size) rest
    (r.1, { name := pf.name, offset := o, typ := pf.typ } :: r.2)

/-- Embeds `ParsedStruct::calculate_offsets` from src/zoneminder/shm.rs: the struct
size is the cursor after the last field (no trailing padding). -/
def ParsedStruct.calculateOffsets (ps : ParsedStruct) : Struct :=
  let r := calcFields 0 ps.fields
  { name := ps.name, size := r.1, fields := r.2 }

/-! ## Typed shared-memory access (src/zoneminder/shm.rs) -/

/-- Embeds `MonitorShm::lookup_field` (src/zoneminder/shm.rs:249-256): first layout
field with the given name; the source panics when the name is absent,
modelled as `none`. -/
def lookupField (fields : List Field) (name : String) : Option Field :=
  match fields with
  | [] => none
  | f :: rest => if f.name = name then some f else lookupField rest name

/-- Embeds `MonitorShm::read_field::<T>` (src/zoneminder/shm.rs:268-272) over a file
modelled as a byte function: look the field up, typecheck
(`MonitorShm::typecheck` panics — `none` — when the recorded (size,
alignment) differs from `T`), then positionally read exactly `t.size` bytes
at the field offset.  The value is returned as its byte representation
(the source bit-reinterprets the bytes). -/
def readField (fields : List Field) (mem : Nat → Nat) (name : String) (t : Typ) :
    Option (List Nat) :=
  match lookupField fields name with
  | none => none
  | some f =>
    if f.typ = t then
      some ((List.range t.size).map fun i => mem (f.offset + i))
    else
      none

/-- Embeds `MonitorShm::write_field::<T>` (src/zoneminder/shm.rs:274-278): symmetric
to `readField`; the value is passed as its byte representation and the write
replaces exactly `t.size` bytes at the field offset. -/
def writeField (fields : List Field) (mem : Nat → Nat) (name : String) (t : Typ)
    (bytes : List Nat) : Option (Nat → Nat) :=
  match lookupField fields name with
  | none => none
  | some f =>
    if f.typ = t then
      some (fun i =>
        if f.offset ≤ i ∧ i < f.offset + t.size then bytes.getD (i - f.offset) 0 else mem i)
    else
      none

/-- Embeds `MonitorShm::write_string` (src/zoneminder/shm.rs:280-289): the
`assert!(field.typ.size >= value.len() + 1)` panic is modelled as `none`;
otherwise exactly the bytes of `value` followed by a single zero terminator
are written at the field offset, and nothing else changes. -/
def writeString (fields : List Field) (mem : Nat → Nat) (name : String)
    (value : List Nat) : Option (Nat → Nat) :=
  match lookupField fields name with
  | none => none
  | some f =>
    if value.length + 1 ≤ f.typ.size then
      some (fun i =>
        if f.offset ≤ i ∧ i < f.offset + (value.length + 1) then
          (value ++ [0]).getD (i - f.offset) 0
        else
          mem i)
    else
      none

/-! ## Monitor state and trigger handshake (src/zoneminder.rs) -/

/-- Embeds `MonitorState` enum from src/zoneminder/shm.rs:516-523. -/
inductive MonitorState
  | Unknown
  | Idle
  | Prealarm
  | Alarm
  | Alert
  | Tape
deriving DecidableEq, Repr

/-- Embeds `TriggerState` enum from src/zoneminder/shm.rs:552-556. -/
inductive TriggerState
  | TriggerCancel
  | TriggerOn
  | TriggerOff
deriving DecidableEq, Repr

/-- The break condition of the poll loop in `Monitor::trigger`
(src/zoneminder.rs:105): the loop exits when the state read is `Alarm` or
`Alert`. -/
def pollExits (s : MonitorState) : Bool :=
  match s with
  | MonitorState.Alarm => true
  | MonitorState.Alert => true
  | _ => false

/-- The poll loop of `Monitor::trigger` (src/zoneminder.rs:100-112),
fuel-bounded: `states k` is the monitor state returned by the k-th read.
Starting at iteration `n`, return the iteration at which the loop exits, if
any within `fuel` further reads.  The source loop (`for n in 0..`) has no
timeout break: past iteration 500 it logs once per iteration and keeps
polling, so no exit other than `pollExits` exists. -/
def pollFirstExit (states : Nat → MonitorState) (n : Nat) : Nat → Option Nat
  | 0 => none
  | fuel + 1 =>
    if pollExits (states n) then some n else pollFirstExit states (n + 1) fuel

/-- Capacity of `MonitorTriggerData::trigger_cause`.  Modelled from the spec:
the `MonitorTriggerData` struct definition is not among the sources; §6 of
the spec records `trigger_cause (i8[32])`. -/
def triggerCauseCapacity : Nat := 32

/-- Capacity of `MonitorTriggerData::trigger_text`.  Modelled from the spec:
§6 records `trigger_text (i8[256])`. -/
def triggerTextCapacity : Nat := 256

/-- Modelled from the spec: the `MonitorTriggerData` struct referenced by
src/zoneminder.rs is not among the sources; §6 of the spec lists its fields
(`size`, `trigger_state`, `trigger_score`, `padding`,
`trigger_cause: i8[32]`, `trigger_text: i8[256]`,
`trigger_showtext: i8[256]`).  Bytes are modelled as `Nat`. -/
structure MonitorTriggerData where
  size : Nat
  trigger_state : TriggerState
  trigger_score : Nat
  trigger_cause : List Nat
  trigger_text : List Nat
  trigger_showtext : List Nat
deriving DecidableEq, Repr

/-- Embeds `Monitor::set_trigger` (src/zoneminder.rs:117-130) acting on the trigger
data previously read from shared memory.
`trigger_data.trigger_cause[..cause.len()].copy_from_slice(cause)` panics
(modelled as `none`) when `cause.len()` exceeds the 32-byte field, and
otherwise overwrites only the first `cause.len()` bytes, leaving the rest of
the field as read; likewise for `trigger_text` with 256 bytes.  No zero
terminator is appended and no truncation is performed.  `trigger_showtext`
is zero-filled, the score stored, and the final write carries
`trigger_state = TriggerOn`. -/
def setTrigger (current : MonitorTriggerData) (cause description : List Nat)
    (score : Nat) : Option MonitorTriggerData :=
  if cause.length ≤ triggerCauseCapacity ∧ description.length ≤ triggerTextCapacity then
    some { current with
      trigger_cause := cause ++ current.trigger_cause.drop cause.length
      trigger_text := description ++ current.trigger_text.drop description.length
      trigger_showtext := List.replicate triggerTextCapacity 0
      trigger_score := score
      trigger_state := TriggerState.TriggerOn }
  else
    none

/-- Embeds `size_of::<libc::timeval>()` on 64-bit Linux: two 64-bit words. -/
def timevalSize : Nat := 16

/-- The image-ring offset computation in `Monitor::stream_images`
(src/zoneminder.rs:73-77): the raw offset is the timestamps offset plus
`image_buffer_count` timevals, and the source then computes
`offset + 64 - offset % 64` unconditionally. -/
def sharedImagesOffset (sharedTimestampsOffset imageBufferCount : Nat) : Nat :=
  let off := sharedTimestampsOffset + imageBufferCount * timevalSize
  off + 64 - off % 64

/-- Modelled from the spec: byte size of a `#[repr(C)]` struct given its
fields as (size, alignment) pairs — offsets advance via `align_to`, the
total size is rounded up to the struct alignment (the maximum field
alignment).  Needed because the `MonitorSharedData` and
`MonitorTriggerData` Rust definitions are not among the sources. -/
def cStructSize (fields : List (Nat × Nat)) : Nat :=
  alignTo (fields.foldl (fun off f => alignTo off f.2 + f.1) 0)
    (fields.foldl (fun a f => max a f.2) 1)

/-- Modelled from the spec, §6: the (size, alignment) pairs of the
`SharedData` fields in declaration order (`size` u32 through
`audio_fifo_path` i8[64], with four `time_t64` fields of alignment 8). -/
def sharedDataFields : List (Nat × Nat) :=
  [(4, 4), (4, 4), (4, 4), (4, 4), (8, 8), (8, 8), (8, 8), (4, 4), (4, 4),
   (4, 4), (4, 4), (4, 4), (4, 4), (4, 4), (1, 1), (1, 1), (1, 1), (1, 1),
   (4, 4), (4, 4), (4, 4), (4, 4), (8, 8), (8, 8), (8, 8), (8, 8),
   (256, 1), (256, 1), (64, 1), (64, 1)]

/-- Modelled from the spec, §6: the (size, alignment) pairs of the
`TriggerData` fields (`size`, `trigger_state`, `trigger_score`, `padding`,
`trigger_cause` i8[32], `trigger_text` i8[256], `trigger_showtext`
i8[256]). -/
def triggerDataFields : List (Nat × Nat) :=
  [(4, 4), (4, 4), (4, 4), (4, 4), (32, 1), (256, 1), (256, 1)]

/-- Embeds `size_of::<shm::MonitorSharedData>()` as used by `Monitor::read`. -/
def monitorSharedDataSize : Nat := cStructSize sharedDataFields

/-- Embeds `size_of::<shm::MonitorTriggerData>()` as used by `Monitor::read`. -/
def monitorTriggerDataSize : Nat := cStructSize triggerDataFields

/-- The fields of `MonitorSharedData` that `Monitor::read` inspects (the
struct definition itself is not among the sources). -/
structure SharedDataRead where
  size : Nat
  valid : Nat
  state : MonitorState
  last_event_id : Nat
deriving DecidableEq, Repr

/-- The field of `MonitorTriggerData` that `Monitor::read` inspects for the
version check. -/
structure TriggerDataRead where
  size : Nat
deriving DecidableEq, Repr

/-- The distinct failure modes of `Monitor::read` (src/zoneminder.rs:143-164):
the `valid == 0` error, the stale-inode error from `check_file_stale`, and
the two `assert_eq!` panics on the stored struct sizes. -/
inductive ReadError
  | shmInvalid
  | staleMapping
  | sharedSizeMismatch
  | triggerSizeMismatch
deriving DecidableEq, Repr

/-- Embeds `Monitor::read` (src/zoneminder.rs:143-164) given the shared data and
trigger data bytes it just read and the outcome `stale` of the inode
comparison in `check_file_stale`: reject invalid shm first, then a stale
mapping, then assert that the stored `size` fields equal the compiled
struct sizes, and only then produce the snapshot. -/
def monitorRead (sd : SharedDataRead) (td : TriggerDataRead) (stale : Bool) :
    Except ReadError (SharedDataRead × TriggerDataRead) :=
  if sd.valid = 0 then Except.error ReadError.shmInvalid
  else if stale then Except.error ReadError.staleMapping
  else if sd.size ≠ monitorSharedDataSize then Except.error ReadError.sharedSizeMismatch
  else if td.size ≠ monitorTriggerDataSize then Except.error ReadError.triggerSizeMismatch
  else Except.ok (sd, td)

/-! ## Event tracker (src/main.rs, mod coalescing) -/

/-- Embeds `opencv::core::Rect` as used for bounding boxes. -/
structure Rect where
  x : Int
  y : Int
  width : Int
  height : Int
deriving DecidableEq, Repr

/-- Embeds `Detection` from src/ml.rs; `confidence: f32` is modelled as `ℚ`. -/
structure Detection where
  confidence : ℚ
  class_id : Int
  bounding_box : Rect
deriving DecidableEq, Repr

/-- The sort key `(d.confidence * 1000.0) as u32` used by
`EventTracker::clear` and `run` (src/main.rs:351 and src/main.rs:451):
floor of 1000 × confidence; the `as u32` cast saturates at 0 for negative
values, which `Int.toNat` reproduces. -/
def detectionKey (d : Detection) : Nat := (d.confidence * 1000).floor.toNat

/-- Rust `Iterator::max_by_key` over a non-empty list, as used in
`EventTracker::clear`: among elements whose key ties for the maximum, the
LAST one wins, which the left fold reproduces by replacing the accumulator
whenever the new key is greater or equal. -/
def maxByKeyLast (key : Detection → Nat) (d : Detection) (ds : List Detection) :
    Detection :=
  ds.foldl (fun acc x => if key acc ≤ key x then x else acc) d

/-- Embeds `TrackedEvent` from src/main.rs:407-410. -/
structure TrackedEvent where
  event_id : Nat
  detections : List Detection
deriving DecidableEq, Repr

/-- Embeds `UpdateEvent` from src/main.rs:412-415. -/
structure UpdateEvent where
  event_id : Nat
  detection : Detection
deriving DecidableEq, Repr

/-- Embeds `EventTracker` from src/main.rs:417-419. -/
structure EventTracker where
  current_event : Option TrackedEvent
deriving DecidableEq, Repr

/-- Embeds `EventTracker::new` from src/main.rs:422-426. -/
def EventTracker.new : EventTracker := { current_event := none }

/-- Embeds `EventTracker::clear` (src/main.rs:446-465) as a pure state transformer:
take the current event, pick the best detection by `max_by_key`, and emit
the update.  The source `unwrap`s the maximum; `detections` is never empty
for a live event, and the unreachable empty case is modelled as `none`. -/
def EventTracker.clear (t : EventTracker) : Option UpdateEvent × EventTracker :=
  match t.current_event with
  | none => (none, { current_event := none })
  | some ce =>
    match ce.detections with
    | [] => (none, { current_event := none })
    | d :: ds =>
      (some { event_id := ce.event_id, detection := maxByKeyLast detectionKey d ds },
       { current_event := none })

/-- Embeds `EventTracker::push_detection` (src/main.rs:428-444) as a pure state
transformer: no current event — start one, return nothing; same event id —
append, return nothing; different event id — flush via `clear` and start a
new event with this detection, returning the flush result. -/
def EventTracker.pushDetection (t : EventTracker) (d : Detection) (event_id : Nat) :
    Option UpdateEvent × EventTracker :=
  match t.current_event with
  | some ce =>
    if ce.event_id ≠ event_id then
      ((t.clear).1, { current_event := some { event_id := event_id, detections := [d] } })
    else
      (none,
       { current_event := some { event_id := ce.event_id, detections := ce.detections ++ [d] } })
  | none => (none, { current_event := some { event_id := event_id, detections := [d] } })

/-- A run of `push_detection` calls sharing one event id, as performed by the
pipeline loop in `run` (src/main.rs:336-385). -/
def EventTracker.pushAll (t : EventTracker) (ds : List Detection) (event_id : Nat) :
    EventTracker :=
  ds.foldl (fun acc d => (acc.pushDetection d event_id).2) t

/-! ## Zone configuration parsing (src/zoneminder/db.rs) -/

/-- Rust `char::is_ascii_whitespace`: space, tab, newline, form feed,
carriage return. -/
def isAsciiWs (c : Char) : Bool :=
  c == ' ' || c == '\t' || c == '\n' || c == '\x0c' || c == '\r'

/-- Worker for `split_ascii_whitespace`: split into maximal runs of
non-whitespace characters, never yielding empty items. -/
def splitWsAux : List Char → List Char → List (List Char)
  | [], acc => if acc = [] then [] else [acc.reverse]
  | c :: cs, acc =>
    if isAsciiWs c then
      if acc = [] then splitWsAux cs [] else acc.reverse :: splitWsAux cs []
    else
      splitWsAux cs (c :: acc)

/-- Rust `str::split_ascii_whitespace`. -/
def splitAsciiWs (s : List Char) : List (List Char) := splitWsAux s []

/-- Rust `str::split_once(sep)`: split at the first occurrence of `sep`,
`none` when `sep` does not occur. -/
def splitOnceChar (sep : Char) : List Char → Option (List Char × List Char)
  | [] => none
  | c :: cs =>
    if c = sep then some ([], cs)
    else (splitOnceChar sep cs).map fun p => (c :: p.1, p.2)

/-- Rust `str::trim` restricted to ASCII whitespace (the zone-name values
never carry other whitespace). -/
def trimAscii (cs : List Char) : List Char :=
  ((cs.dropWhile fun c => isAsciiWs c).reverse.dropWhile fun c => isAsciiWs c).reverse

/-- Digit-string to number: `none` unless the input is one or more ASCII
digits. -/
def parseNatDigits (cs : List Char) : Option Nat :=
  if cs ≠ [] ∧ cs.all fun c => c.isDigit then
    some (cs.foldl (fun acc c => acc * 10 + (c.toNat - 48)) 0)
  else
    none

/-- Rust `str::parse::<u32>`: optional leading plus sign, digits, u32 bounds
check. -/
def parseU32 (cs : List Char) : Option Nat :=
  let digits := match cs with
    | '+' :: rest => rest
    | _ => cs
  match parseNatDigits digits with
  | some v => if v < 2 ^ 32 then some v else none
  | none => none

/-- Rust `str::parse::<i32>`: optional sign, digits, i32 bounds check. -/
def parseI32 (cs : List Char) : Option Int :=
  match cs with
  | '-' :: rest =>
    (parseNatDigits rest).bind fun v =>
      if (v : Int) ≤ 2 ^ 31 then some (-(v : Int)) else none
  | '+' :: rest =>
    (parseNatDigits rest).bind fun v =>
      if (v : Int) < 2 ^ 31 then some (v : Int) else none
  | _ =>
    (parseNatDigits cs).bind fun v =>
      if (v : Int) < 2 ^ 31 then some (v : Int) else none

/-- Rust `str::parse::<f32>` restricted to the grammar `digits[.digits]`
exercised by zone-name values, modelled exactly over `ℚ`. -/
def parseDecimal (cs : List Char) : Option ℚ :=
  match splitOnceChar '.' cs with
  | none => (parseNatDigits cs).map fun v => (v : ℚ)
  | some p =>
    match parseNatDigits p.1, parseNatDigits p.2 with
    | some i, some f => some ((i : ℚ) + (f : ℚ) / ((10 : ℚ) ^ p.2.length))
    | _, _ => none

/-- Embeds `ZoneConfig` from src/zoneminder/db.rs:211-219; `threshold: f32` is
modelled as `ℚ`. -/
structure ZoneConfig where
  size : Option Nat
  threshold : Option ℚ
  shape : List (Int × Int)
  trigger : Option Nat
  fps : Option Nat
  min_area : Option Nat
deriving DecidableEq, Repr

/-- The key/value extraction in `ZoneConfig::parse_zone_name`
(src/zoneminder/db.rs:247-252): split on ASCII whitespace, skip the zone
tag, keep the tokens containing an equals sign, split each at the first
one. -/
def zoneNameKeys (zoneName : List Char) : List (List Char × List Char) :=
  ((splitAsciiWs zoneName).drop 1).filterMap fun item => splitOnceChar '=' item

/-- Embeds `HashMap` lookup after `collect()` on the key/value pairs: on duplicate
keys the later entry wins. -/
def keysGet (pairs : List (List Char × List Char)) (key : List Char) :
    Option (List Char) :=
  pairs.foldl (fun acc p => if p.1 = key then some p.2 else acc) none

/-- The `get_int` closure of `ZoneConfig::parse_zone_name`
(src/zoneminder/db.rs:254). -/
def getIntKey (pairs : List (List Char × List Char)) (key : List Char) :
    Option Nat :=
  (keysGet pairs key).bind fun v => parseU32 (trimAscii v)

/-- Embeds `ZoneConfig::parse_zone_name` (src/zoneminder/db.rs:246-267). -/
def parseZoneName (zoneName : List Char) : ZoneConfig :=
  let keys := zoneNameKeys zoneName
  { shape := []
    threshold :=
      ((keysGet keys ("Threshold").data).bind fun v =>
        parseDecimal (trimAscii v)).map fun v => v / 100
    size := getIntKey keys ("Size").data
    trigger := getIntKey keys ("Trigger").data
    fps := getIntKey keys ("FPS").data
    min_area := getIntKey keys ("MinArea").data }

/-- Embeds `ZoneConfig::parse_zone_coords` (src/zoneminder/db.rs:269-277): split on
whitespace, keep tokens with a comma, parse both halves as i32 (the source
`unwrap`s the parses — a failing parse, modelled as `none` overall,
panics). -/
def parseZoneCoords (coords : List Char) : Option (List (Int × Int)) :=
  ((splitAsciiWs coords).filterMap fun point => splitOnceChar ',' point).mapM
    fun p => (parseI32 (trimAscii p.1)).bind fun x =>
      (parseI32 (trimAscii p.2)).map fun y => (x, y)

/-- Minimum of a list of `Int`, `none` on empty (the source `unwrap`s). -/
def listMinInt : List Int → Option Int
  | [] => none
  | x :: xs => some (xs.foldl min x)

/-- Maximum of a list of `Int`, `none` on empty (the source `unwrap`s). -/
def listMaxInt : List Int → Option Int
  | [] => none
  | x :: xs => some (xs.foldl max x)

/-- Embeds `Bounding::bounding_box` for `ZoneShape` (src/zoneminder/db.rs:193-209):
min/max of the x and y coordinates; the `unwrap` on an empty shape is
modelled as `none`. -/
def boundingBox (shape : List (Int × Int)) : Option Rect :=
  match listMinInt (shape.map fun xy => xy.1), listMinInt (shape.map fun xy => xy.2),
        listMaxInt (shape.map fun xy => xy.1), listMaxInt (shape.map fun xy => xy.2) with
  | some minX, some minY, some maxX, some maxY =>
    some { x := minX, y := minY, width := maxX - minX, height := maxY - minY }
  | _, _, _, _ => none

/-- A concrete detection used by witness instantiations. -/
def sampleDetection : Detection :=
  { confidence := 9 / 10, class_id := 1
    bounding_box := { x := 300, y := 200, width := 60, height := 120 } }

/-- A concrete trigger-data value used by counterexample and witness
instantiations: the three text fields hold the nonzero residue byte 255. -/
def sampleTriggerData : MonitorTriggerData :=
  { size := 560, trigger_state := TriggerState.TriggerCancel, trigger_score := 0
    trigger_cause := List.replicate 32 255
    trigger_text := List.replicate 256 255
    trigger_showtext := List.replicate 256 255 }

/-- Concrete detection: confidence 1/2 (key 500), class id 1, first-seen in
the tie counterexample. -/
def tieFirst : Detection :=
  { confidence := 1 / 2, class_id := 1
    bounding_box := { x := 0, y := 0, width := 10, height := 10 } }

/-- Concrete detection: confidence 1/2 (key 500), class id 3, last-seen in
the tie counterexample. -/
def tieSecond : Detection :=
  { confidence := 1 / 2, class_id := 3
    bounding_box := { x := 0, y := 0, width := 10, height := 10 } }

/-- A concrete layout field (u32 scalar) for witness instantiations. -/
def sampleScoreField : Field :=
  { name := "TriggerData::trigger_score", offset := 8
    typ := { size := 4, alignment := 4 } }

/-- A concrete layout field (32-byte array) for witness instantiations. -/
def sampleCauseField : Field :=
  { name := "TriggerData::trigger_cause", offset := 16
    typ := { size := 32, alignment := 1 } }

/-- The three-field `SharedData` example struct from the shm.rs tests (u32,
time_t64, i8[64]). -/
def testSharedStruct : ParsedStruct :=
  { name := "SharedData"
    fields := [{ name := "size", typ := { size := 4, alignment := 4 } },
               { name := "startup_time", typ := { size := 8, alignment := 8 } },
               { name := "audio_fifo", typ := { size := 64, alignment := 1 } }] }

/-- Concrete shared-data bytes with the compiled struct size and a set valid
flag, for witness instantiations. -/
def sampleSharedRead : SharedDataRead :=
  { size := 760, valid := 1, state := MonitorState.Idle, last_event_id := 42 }

/-- Concrete trigger-data bytes with the compiled struct size, for witness
instantiations. -/
def sampleTriggerRead : TriggerDataRead := { size := 560 }

/-! ## Theorems -/

/-- Helper: `getD` after `drop` indexes into the original list. -/
theorem getD_drop_eq (l : List Nat) (n i d : Nat) :
    (l.drop n).getD i d = l.getD (n + i) d := by
  rw [List.getD_eq_getD_get?, List.getD_eq_getD_get?, List.get?_eq_getElem?,
    List.get?_eq_getElem?, List.getElem?_drop]

/-- Helper: the poll loop reports an exit only at an iteration whose state
satisfies the break condition, not earlier than it started, and with no
earlier break opportunity skipped. -/
theorem pollFirstExit_some_spec (states : Nat → MonitorState) :
    ∀ fuel n m, pollFirstExit states n fuel = some m →
      pollExits (states m) = true ∧ n ≤ m ∧
      ∀ k, n ≤ k → k < m → pollExits (states k) = false := by
  intro fuel
  induction fuel with
  | zero =>
    intro n m h
    simp [pollFirstExit] at h
  | succ fuel ih =>
    intro n m h
    unfold pollFirstExit at h
    by_cases hx : pollExits (states n) = true
    · simp only [hx, if_true] at h
      obtain rfl : n = m := by simpa using h
      refine ⟨hx, Nat.le_refl n, ?_⟩
      intro k hk1 hk2
      omega
    · simp only [hx, if_false] at h
      obtain ⟨h1, h2, h3⟩ := ih (n + 1) m h
      refine ⟨h1, by omega, ?_⟩
      intro k hk1 hk2
      by_cases hkn : k = n
      · subst hkn
        simpa using hx
      · exact h3 k (by omega) hk2

/-- Helper: if no read ever satisfies the break condition, the poll loop
never exits within any iteration bound. -/
theorem pollFirstExit_none_of_never (states : Nat → MonitorState)
    (hnever : ∀ k, pollExits (states k) = false) :
    ∀ fuel n, pollFirstExit states n fuel = none := by
  intro fuel
  induction fuel with
  | zero =>
    intro n
    rfl
  | succ fuel ih =>
    intro n
    unfold pollFirstExit
    simp only [hnever n, if_false]
    exact ih (n + 1)

/-- C1 counterexample: with every read returning `Alert`, the poll loop of
`Monitor::trigger` exits at iteration 0 — well before the claimed 5000 ms
timeout — on a state other than `Alarm`; and with every read returning
`Idle` the loop has still not exited after 1000 iterations (10 s, twice the
claimed timeout), because the source loop has no timeout break. -/
theorem trigger_poll_counterexample :
    pollFirstExit (fun _ => MonitorState.Alert) 0 1 = some 0 ∧
    MonitorState.Alert ≠ MonitorState.Alarm ∧ (0 : Nat) < 500 ∧
    pollFirstExit (fun _ => MonitorState.Idle) 0 1000 = none := by
  refine ⟨by decide, by decide, by decide, ?_⟩
  exact pollFirstExit_none_of_never (fun _ => MonitorState.Idle) (fun _ => rfl) 1000 0

/-- C1 (amended): in `Monitor::trigger`, the poll loop exits at the first
read whose state is `Alarm` or `Alert` (the break condition `pollExits`);
if no read ever returns `Alarm` or `Alert`, the loop never exits within any
iteration bound — after iteration 500 it merely logs and keeps polling, so
the poll is not guaranteed to terminate. -/
theorem trigger_poll_amended (states : Nat → MonitorState) :
    (∀ s, pollExits s = true ↔ (s = MonitorState.Alarm ∨ s = MonitorState.Alert)) ∧
    (∀ n fuel m, pollFirstExit states n fuel = some m →
      pollExits (states m) = true ∧ n ≤ m ∧
      ∀ k, n ≤ k → k < m → pollExits (states k) = false) ∧
    (∀ n, pollExits (states n) = true → ∀ fuel, pollFirstExit states n (fuel + 1) = some n) ∧
    ((∀ k, pollExits (states k) = false) → ∀ n fuel, pollFirstExit states n fuel = none) := by
  refine ⟨?_, ?_, ?_, ?_⟩
  · intro s
    cases s <;> simp [pollExits]
  · intro n fuel m h
    exact pollFirstExit_some_spec states fuel n m h
  · intro n hx fuel
    unfold pollFirstExit
    simp [hx]
  · intro hnever n fuel
    exact pollFirstExit_none_of_never states hnever fuel n

/-- C1 witness: the amended theorem applied to the constant `Tape` state
stream shows the loop has not exited after three reads. -/
theorem trigger_poll_amended_witness :
    pollFirstExit (fun _ => MonitorState.Tape) 0 3 = none :=
  (trigger_poll_amended (fun _ => MonitorState.Tape)).2.2.2 (fun _ => rfl) 0 3

/-- C3: for timestamps offset 1344 and `image_buffer_count = 4` the raw
offset 1408 is already a multiple of 64, yet the source computation
`sharedImagesOffset` adds another 64 and yields 1472, while rounding up to
a 64-byte boundary (`alignTo`, which leaves an aligned offset unchanged —
what the publisher does) yields 1408. -/
theorem sharedImagesOffset_off_by_cacheline_when_aligned :
    sharedImagesOffset 1344 4 = 1472 ∧
    (1344 + 4 * timevalSize) % 64 = 0 ∧
    alignTo (1344 + 4 * timevalSize) 64 = 1408 ∧
    sharedImagesOffset 1344 4 ≠ alignTo (1344 + 4 * timevalSize) 64 := by
  decide

/-- C9: parsing the zone name
`aidect Size=128 Threshold=50 MinArea=900` yields size 128, threshold 1/2,
min_area 900 and no trigger or fps override; parsing the coords
`123,56 899,41 687,425` yields the three-point polygon, whose bounding box
is x = 123, y = 41, width = 776, height = 384. -/
theorem zone_parse_example :
    parseZoneName (("aidect Size=128 Threshold=50 MinArea=900").data) =
      { size := some 128, threshold := some (1 / 2), shape := []
        trigger := none, fps := none, min_area := some 900 } ∧
    parseZoneCoords (("123,56 899,41 687,425").data) =
      some [(123, 56), (899, 41), (687, 425)] ∧
    boundingBox [(123, 56), (899, 41), (687, 425)] =
      some { x := 123, y := 41, width := 776, height := 384 } := by
  refine ⟨?_, by decide, by decide⟩
  have h : parseZoneName (("aidect Size=128 Threshold=50 MinArea=900").data) =
      { size := some 128, threshold := some ((50 : ℚ) / 100), shape := []
        trigger := none, fps := none, min_area := some 900 } := rfl
  rw [h]
  simp only [ZoneConfig.mk.injEq, Option.some.injEq]
  norm_num

/-- C2 counterexample: a 33-byte cause makes `Monitor::set_trigger` fail
(the slice copy panics) instead of truncating to capacity − 1; and for a
2-byte cause over a field whose bytes are 255, the byte right after the
copied string remains 255 — the stored string is not zero-terminated. -/
theorem setTrigger_counterexample :
    setTrigger sampleTriggerData (List.replicate 33 97) [] 1 = none ∧
    (setTrigger sampleTriggerData [97, 98] [] 1).map
      (fun td => td.trigger_cause.getD 2 0) = some 255 ∧
    (255 : Nat) ≠ 0 := by
  refine ⟨by decide, by decide, by decide⟩

/-- C2 (amended): `Monitor::set_trigger` succeeds iff the cause fits the
32-byte field and the description the 256-byte field — overlong input makes
the slice copy panic rather than truncate.  On success the first `len`
bytes of each text field are exactly the string's bytes, every byte from
position `len` on keeps the value previously read from shared memory (no
zero terminator is appended), `trigger_showtext` is zero-filled, the score
is stored, and the state written last is `TriggerOn`. -/
theorem setTrigger_amended (cur : MonitorTriggerData) (cause description : List Nat)
    (score : Nat) :
    ((setTrigger cur cause description score).isSome ↔
      cause.length ≤ triggerCauseCapacity ∧ description.length ≤ triggerTextCapacity) ∧
    (∀ td, setTrigger cur cause description score = some td →
      (∀ i, i < cause.length → td.trigger_cause.getD i 0 = cause.getD i 0) ∧
      (∀ i, cause.length ≤ i → td.trigger_cause.getD i 0 = cur.trigger_cause.getD i 0) ∧
      (∀ i, i < description.length → td.trigger_text.getD i 0 = description.getD i 0) ∧
      (∀ i, description.length ≤ i → td.trigger_text.getD i 0 = cur.trigger_text.getD i 0) ∧
      td.trigger_showtext = List.replicate triggerTextCapacity 0 ∧
      td.trigger_score = score ∧
      td.trigger_state = TriggerState.TriggerOn) := by
  constructor
  · unfold setTrigger
    split_ifs with h
    · simpa using h
    · simpa using h
  · intro td h
    unfold setTrigger at h
    split_ifs at h with hcond
    · rw [Option.some.injEq] at h
      subst h
      refine ⟨?_, ?_, ?_, ?_, rfl, rfl, rfl⟩
      · intro i hi
        exact List.getD_append _ _ _ _ hi
      · intro i hi
        rw [show ({ cur with
            trigger_cause := cause ++ cur.trigger_cause.drop cause.length
            trigger_text := description ++ cur.trigger_text.drop description.length
            trigger_showtext := List.replicate triggerTextCapacity 0
            trigger_score := score
            trigger_state := TriggerState.TriggerOn } : MonitorTriggerData).trigger_cause
            = cause ++ cur.trigger_cause.drop cause.length from rfl]
        rw [List.getD_append_right _ _ _ _ hi, getD_drop_eq]
        congr 1
        omega
      · intro i hi
        exact List.getD_append _ _ _ _ hi
      · intro i hi
        rw [show ({ cur with
            trigger_cause := cause ++ cur.trigger_cause.drop cause.length
            trigger_text := description ++ cur.trigger_text.drop description.length
            trigger_showtext := List.replicate triggerTextCapacity 0
            trigger_score := score
            trigger_state := TriggerState.TriggerOn } : MonitorTriggerData).trigger_text
            = description ++ cur.trigger_text.drop description.length from rfl]
        rw [List.getD_append_right _ _ _ _ hi, getD_drop_eq]
        congr 1
        omega

/-- C2 witness: the amended theorem applied to a one-byte cause and
description shows the write succeeding. -/
theorem setTrigger_amended_witness :
    (setTrigger sampleTriggerData [97] [98] 7).isSome :=
  (setTrigger_amended sampleTriggerData [97] [98] 7).1.mpr (by decide)

/-- Helper: the fold implementing `max_by_key` returns an element of the
input (or the seed), its key dominates seed and all elements, and every
element strictly after the returned one has a strictly smaller key — i.e.
among tied maxima the LAST one wins. -/
theorem maxByKeyLast_spec (key : Detection → Nat) :
    ∀ (l : List Detection) (a : Detection),
      (maxByKeyLast key a l = a ∨ maxByKeyLast key a l ∈ l) ∧
      key a ≤ key (maxByKeyLast key a l) ∧
      (∀ x ∈ l, key x ≤ key (maxByKeyLast key a l)) ∧
      ((maxByKeyLast key a l = a ∧ ∀ x ∈ l, key x < key a) ∨
        ∃ l1 l2, l = l1 ++ maxByKeyLast key a l :: l2 ∧
          ∀ x ∈ l2, key x < key (maxByKeyLast key a l)) := by
  intro l
  induction l with
  | nil =>
    intro a
    refine ⟨Or.inl rfl, Nat.le_refl _, by simp, Or.inl ⟨rfl, by simp⟩⟩
  | cons x xs ih =>
    intro a
    have hshape : maxByKeyLast key a (x :: xs) =
        maxByKeyLast key (if key a ≤ key x then x else a) xs := rfl
    rw [hshape]
    by_cases hx : key a ≤ key x
    · rw [if_pos hx]
      obtain ⟨hmem, hle, hall, hlast⟩ := ih x
      refine ⟨?_, ?_, ?_, ?_⟩
      · rcases hmem with h | h
        · exact Or.inr (by rw [h]; exact List.mem_cons_self x xs)
        · exact Or.inr (List.mem_cons_of_mem x h)
      · exact Nat.le_trans hx hle
      · intro y hy
        rcases List.mem_cons.mp hy with h | h
        · rw [h]; exact hle
        · exact hall y h
      · rcases hlast with ⟨hr, hlt⟩ | ⟨l1, l2, heq, hlt⟩
        · refine Or.inr ⟨[], xs, ?_, ?_⟩
          · rw [List.nil_append, hr]
          · intro y hy
            rw [hr]
            exact hlt y hy
        · refine Or.inr ⟨x :: l1, l2, ?_, hlt⟩
          rw [List.cons_append, ← heq]
    · rw [if_neg hx]
      have hxa : key x < key a := Nat.lt_of_not_le hx
      obtain ⟨hmem, hle, hall, hlast⟩ := ih a
      refine ⟨?_, hle, ?_, ?_⟩
      · rcases hmem with h | h
        · exact Or.inl h
        · exact Or.inr (List.mem_cons_of_mem x h)
      · intro y hy
        rcases List.mem_cons.mp hy with h | h
        · rw [h]; exact Nat.le_trans (Nat.le_of_lt hxa) hle
        · exact hall y h
      · rcases hlast with ⟨hr, hlt⟩ | ⟨l1, l2, heq, hlt⟩
        · refine Or.inl ⟨hr, ?_⟩
          intro y hy
          rcases List.mem_cons.mp hy with h | h
          · rw [h]; exact hxa
          · exact hlt y h
        · refine Or.inr ⟨x :: l1, l2, ?_, hlt⟩
          rw [List.cons_append, ← heq]

/-- C4 counterexample: two detections with equal key
⌊confidence·1000⌋ = 500 but different class ids, pushed in order under
event id 5: the flush emitted by `EventTracker::clear` carries the SECOND
(last-seen) detection, not the first-seen one the claim requires. -/
theorem eventTracker_tie_counterexample :
    detectionKey tieFirst = detectionKey tieSecond ∧
    tieFirst ≠ tieSecond ∧
    ((((EventTracker.new.pushDetection tieFirst 5).2).pushDetection tieSecond 5).2.clear).1 =
      some { event_id := 5, detection := tieSecond } := by
  refine ⟨rfl, ?_, ?_⟩
  · intro h
    have hcls : tieFirst.class_id = tieSecond.class_id := by rw [h]
    simp [tieFirst, tieSecond] at hcls
  · have h1 : (EventTracker.new.pushDetection tieFirst 5).2 =
        { current_event := some { event_id := 5, detections := [tieFirst] } } := rfl
    rw [h1]
    have h2 : (EventTracker.pushDetection
        { current_event := some { event_id := 5, detections := [tieFirst] } } tieSecond 5).2 =
        { current_event := some { event_id := 5, detections := [tieFirst, tieSecond] } } := rfl
    rw [h2]
    show (some { event_id := 5, detection := maxByKeyLast detectionKey tieFirst [tieSecond] } :
      Option UpdateEvent) = some { event_id := 5, detection := tieSecond }
    have h3 : maxByKeyLast detectionKey tieFirst [tieSecond] = tieSecond := by
      show (if detectionKey tieFirst ≤ detectionKey tieSecond then tieSecond else tieFirst) =
        tieSecond
      rw [if_pos (Nat.le_of_eq (show detectionKey tieFirst = detectionKey tieSecond from rfl))]
    rw [h3]

/-- C4 (amended): for every non-empty detection list accumulated under one
event id, the update emitted by `EventTracker::clear` carries a detection of
the tracked event whose key ⌊confidence·1000⌋ is maximal; among detections
tying on that key the LAST-seen one is chosen (every detection after the
emitted one has a strictly smaller key). -/
theorem eventTracker_clear_amended (e : Nat) (d : Detection) (ds : List Detection) :
    ∃ u, (EventTracker.clear
        { current_event := some { event_id := e, detections := d :: ds } }).1 = some u ∧
      u.event_id = e ∧
      (u.detection = d ∨ u.detection ∈ ds) ∧
      detectionKey d ≤ detectionKey u.detection ∧
      (∀ x ∈ ds, detectionKey x ≤ detectionKey u.detection) ∧
      ∃ l1 l2, d :: ds = l1 ++ u.detection :: l2 ∧
        ∀ x ∈ l2, detectionKey x < detectionKey u.detection := by
  obtain ⟨hmem, hle, hall, hlast⟩ := maxByKeyLast_spec detectionKey ds d
  refine ⟨{ event_id := e, detection := maxByKeyLast detectionKey d ds },
    rfl, rfl, hmem, hle, hall, ?_⟩
  rcases hlast with ⟨hr, hlt⟩ | ⟨l1, l2, heq, hlt⟩
  · refine ⟨[], ds, ?_, ?_⟩
    · rw [List.nil_append, hr]
    · intro y hy
      rw [hr]
      exact hlt y hy
  · refine ⟨d :: l1, l2, ?_, hlt⟩
    rw [List.cons_append, ← heq]

/-- Helper: after any `push_detection` with event id `e`, the tracker's
current event carries id `e` and a non-empty detection list. -/
theorem pushDetection_current (t : EventTracker) (d : Detection) (e : Nat) :
    ∃ l, ((t.pushDetection d e).2).current_event =
      some { event_id := e, detections := l } ∧ l ≠ [] := by
  rcases t with ⟨ce⟩
  cases ce with
  | none => exact ⟨[d], rfl, by simp⟩
  | some tr =>
    by_cases he : tr.event_id = e
    · refine ⟨tr.detections ++ [d], ?_, by simp⟩
      simp [EventTracker.pushDetection, he]
    · refine ⟨[d], ?_, by simp⟩
      simp [EventTracker.pushDetection, he]

/-- Helper: `clear` on a tracker holding a live (non-empty) event with id
`e` flushes an update with that id. -/
theorem clear_some_of_current (t : EventTracker) (e : Nat) (l : List Detection)
    (hc : t.current_event = some { event_id := e, detections := l }) (hl : l ≠ []) :
    ∃ u, (t.clear).1 = some u ∧ u.event_id = e := by
  rcases t with ⟨ce⟩
  cases l with
  | nil => exact absurd rfl hl
  | cons d ds =>
    have hce : ce = some { event_id := e, detections := d :: ds } := hc
    subst hce
    exact ⟨{ event_id := e, detection := maxByKeyLast detectionKey d ds }, rfl, rfl⟩

/-- Helper: a run of pushes sharing the current event's id keeps the tracked
event id and a non-empty detection list. -/
theorem pushAll_keeps (e : Nat) (ds : List Detection) :
    ∀ (t : EventTracker) (l : List Detection),
      t.current_event = some { event_id := e, detections := l } → l ≠ [] →
      ∃ l2, (t.pushAll ds e).current_event =
        some { event_id := e, detections := l2 } ∧ l2 ≠ [] := by
  induction ds with
  | nil =>
    intro t l h hl
    exact ⟨l, h, hl⟩
  | cons d rest ih =>
    intro t l h hl
    obtain ⟨l1, h1, hl1⟩ := pushDetection_current t d e
    exact ih (t.pushDetection d e).2 l1 h1 hl1

/-- C5: the EventTracker flush law — a push under event id `e` followed by a
push under a different id `ep` always returns an update carrying `e` on the
second call; and starting from a fresh tracker (the state after any
flush-by-clear), a run of pushes all under id `e` followed by `clear`
returns an update carrying `e` iff at least one push happened. -/
theorem eventTracker_flush_law :
    (∀ (t : EventTracker) (d dd : Detection) (e ep : Nat), e ≠ ep →
      ∃ u, (((t.pushDetection d e).2).pushDetection dd ep).1 = some u ∧ u.event_id = e) ∧
    (∀ (ds : List Detection) (e : Nat),
      (∃ u, ((EventTracker.new.pushAll ds e).clear).1 = some u ∧ u.event_id = e) ↔
        ds ≠ []) := by
  constructor
  · intro t d dd e ep hne
    obtain ⟨l, hc, hl⟩ := pushDetection_current t d e
    rcases hmatch : (t.pushDetection d e).2 with ⟨ce⟩
    rw [hmatch] at hc
    have hce : ce = some { event_id := e, detections := l } := hc
    subst hce
    obtain ⟨u, hu, hue⟩ :=
      clear_some_of_current (EventTracker.mk (some { event_id := e, detections := l })) e l rfl hl
    refine ⟨u, ?_, hue⟩
    simpa [EventTracker.pushDetection, hne] using hu
  · intro ds e
    constructor
    · rintro ⟨u, hu, _⟩ hds
      subst hds
      cases hu
    · intro hds
      obtain ⟨d, rest, rfl⟩ := List.exists_cons_of_ne_nil hds
      obtain ⟨l0, h0, hl0⟩ := pushDetection_current EventTracker.new d e
      obtain ⟨l2, h2, hl2⟩ := pushAll_keeps e rest (EventTracker.new.pushDetection d e).2 l0 h0 hl0
      exact clear_some_of_current _ e l2 h2 hl2

/-- C5 witness: the flush law applied to two concrete pushes with event ids
1 then 2. -/
theorem eventTracker_flush_law_witness :
    ∃ u, (((EventTracker.new.pushDetection sampleDetection 1).2).pushDetection
      sampleDetection 2).1 = some u ∧ u.event_id = 1 :=
  eventTracker_flush_law.1 EventTracker.new sampleDetection sampleDetection 1 2 (by decide)

/-- C6: for a field name present in the layout, `read_field` and
`write_field` fail exactly when the layout's recorded (size, alignment)
pair differs from the requested type's; when the pair matches, the read
returns exactly `t.size` bytes taken positionally at the field offset, and
the write replaces exactly the `t.size` bytes at the field offset with the
value's bytes, touching nothing else. -/
theorem readWriteField_typecheck (fields : List Field) (mem : Nat → Nat) (name : String)
    (t : Typ) (f : Field) (bytes : List Nat)
    (hf : lookupField fields name = some f) :
    (readField fields mem name t = none ↔ f.typ ≠ t) ∧
    (f.typ = t →
      readField fields mem name t =
        some ((List.range t.size).map fun i => mem (f.offset + i))) ∧
    (writeField fields mem name t bytes = none ↔ f.typ ≠ t) ∧
    (f.typ = t → ∃ mem2, writeField fields mem name t bytes = some mem2 ∧
      (∀ i, i < f.offset ∨ f.offset + t.size ≤ i → mem2 i = mem i) ∧
      (∀ j, j < t.size → mem2 (f.offset + j) = bytes.getD j 0)) := by
  have hr : readField fields mem name t =
      if f.typ = t then some ((List.range t.size).map fun i => mem (f.offset + i))
      else none := by
    unfold readField
    rw [hf]
  have hw : writeField fields mem name t bytes =
      if f.typ = t then
        some (fun i =>
          if f.offset ≤ i ∧ i < f.offset + t.size then bytes.getD (i - f.offset) 0 else mem i)
      else none := by
    unfold writeField
    rw [hf]
  refine ⟨?_, ?_, ?_, ?_⟩
  · rw [hr]
    by_cases ht : f.typ = t
    · simp [ht]
    · simp [ht]
  · intro ht
    rw [hr, if_pos ht]
  · rw [hw]
    by_cases ht : f.typ = t
    · simp [ht]
    · simp [ht]
  · intro ht
    refine ⟨_, by rw [hw, if_pos ht], ?_, ?_⟩
    · intro i hi
      have hcond : ¬(f.offset ≤ i ∧ i < f.offset + t.size) := by omega
      show (if f.offset ≤ i ∧ i < f.offset + t.size then bytes.getD (i - f.offset) 0
        else mem i) = mem i
      rw [if_neg hcond]
    · intro j hj
      have hcond : f.offset ≤ f.offset + j ∧ f.offset + j < f.offset + t.size := by omega
      show (if f.offset ≤ f.offset + j ∧ f.offset + j < f.offset + t.size then
          bytes.getD (f.offset + j - f.offset) 0
        else mem (f.offset + j)) = bytes.getD j 0
      rw [if_pos hcond]
      congr 1
      omega

/-- C6 witness: the typecheck theorem applied at a concrete one-field layout
over an all-zero memory, reading the u32 field at offset 8. -/
theorem readWriteField_typecheck_witness :
    readField [sampleScoreField] (fun _ => 0) ("TriggerData::trigger_score")
      { size := 4, alignment := 4 } = some [0, 0, 0, 0] := by
  have h := (readWriteField_typecheck [sampleScoreField] (fun _ => 0)
      ("TriggerData::trigger_score") { size := 4, alignment := 4 } sampleScoreField []
      rfl).2.1 rfl
  rw [h]
  rfl

/-- C8: for a field holding a byte array of capacity `f.typ.size`,
`write_string` with a string shorter than the capacity writes exactly the
string's bytes followed by one zero byte at the field offset and leaves
every other position (in particular the field's bytes at positions
≥ len + 1) unchanged; when the capacity does not exceed the string length
the operation fails (the capacity assertion panics). -/
theorem writeString_spec (fields : List Field) (mem : Nat → Nat) (name : String)
    (value : List Nat) (f : Field) (hf : lookupField fields name = some f) :
    (value.length < f.typ.size →
      ∃ mem2, writeString fields mem name value = some mem2 ∧
        (∀ j, j < value.length → mem2 (f.offset + j) = value.getD j 0) ∧
        mem2 (f.offset + value.length) = 0 ∧
        (∀ i, i < f.offset ∨ f.offset + value.length + 1 ≤ i → mem2 i = mem i)) ∧
    (f.typ.size ≤ value.length → writeString fields mem name value = none) := by
  have hw : writeString fields mem name value =
      if value.length + 1 ≤ f.typ.size then
        some (fun i =>
          if f.offset ≤ i ∧ i < f.offset + (value.length + 1) then
            (value ++ [0]).getD (i - f.offset) 0
          else mem i)
      else none := by
    unfold writeString
    rw [hf]
  constructor
  · intro hcap
    refine ⟨_, by rw [hw, if_pos (by omega)], ?_, ?_, ?_⟩
    · intro j hj
      have hcond : f.offset ≤ f.offset + j ∧ f.offset + j < f.offset + (value.length + 1) := by
        omega
      show (if f.offset ≤ f.offset + j ∧ f.offset + j < f.offset + (value.length + 1) then
          (value ++ [0]).getD (f.offset + j - f.offset) 0
        else mem (f.offset + j)) = value.getD j 0
      rw [if_pos hcond]
      have hidx : f.offset + j - f.offset = j := by omega
      rw [hidx, List.getD_append _ _ _ _ hj]
    · have hcond : f.offset ≤ f.offset + value.length ∧
          f.offset + value.length < f.offset + (value.length + 1) := by omega
      show (if f.offset ≤ f.offset + value.length ∧
            f.offset + value.length < f.offset + (value.length + 1) then
          (value ++ [0]).getD (f.offset + value.length - f.offset) 0
        else mem (f.offset + value.length)) = 0
      rw [if_pos hcond]
      have hidx : f.offset + value.length - f.offset = value.length := by omega
      rw [hidx, List.getD_append_right _ _ _ _ (Nat.le_refl _)]
      simp
    · intro i hi
      have hcond : ¬(f.offset ≤ i ∧ i < f.offset + (value.length + 1)) := by omega
      show (if f.offset ≤ i ∧ i < f.offset + (value.length + 1) then
          (value ++ [0]).getD (i - f.offset) 0
        else mem i) = mem i
      rw [if_neg hcond]
  · intro hcap
    rw [hw, if_neg (by omega)]

/-- C8 witness: a 32-byte string does not fit the 32-byte cause field
(capacity must strictly exceed the length), so the write fails. -/
theorem writeString_spec_witness :
    writeString [sampleCauseField] (fun _ => 7) ("TriggerData::trigger_cause")
      (List.replicate 32 97) = none :=
  (writeString_spec [sampleCauseField] (fun _ => 7) ("TriggerData::trigger_cause")
    (List.replicate 32 97) sampleCauseField rfl).2 (by decide)

/-- Helper: `align_to` returns a multiple of the (positive) alignment. -/
theorem alignTo_mod_self (x a : Nat) (ha : 0 < a) : alignTo x a % a = 0 := by
  unfold alignTo
  split_ifs with h
  · exact h
  · have h1 := Nat.div_add_mod x a
    have h2 : x % a < a := Nat.mod_lt _ ha
    have h3 : x + a - x % a = a * (x / a) + a := by omega
    rw [h3, Nat.add_mod, Nat.mul_mod_right, Nat.mod_self]
    simp

/-- Helper: `align_to` never moves the cursor backwards. -/
theorem le_alignTo (x a : Nat) (ha : 0 < a) : x ≤ alignTo x a := by
  unfold alignTo
  split_ifs with h
  · exact Nat.le_refl x
  · have h2 : x % a < a := Nat.mod_lt _ ha
    omega

/-- Helper: alignment of zero is zero. -/
theorem alignTo_zero (a : Nat) : alignTo 0 a = 0 := by
  simp [alignTo]

/-- Helper: offset calculation keeps each field's declared type. -/
theorem calcFields_typ_map : ∀ (off : Nat) (l : List ParsedField),
    ((calcFields off l).2).map Field.typ = l.map ParsedField.typ := by
  intro off l
  induction l generalizing off with
  | nil => rfl
  | cons pf rest ih =>
    simp only [calcFields, List.map_cons]
    rw [ih]

/-- Helper: the first field laid out from cursor `off` sits at
`align_to off alignment`. -/
theorem calcFields_head : ∀ (off : Nat) (l : List ParsedField) (f : Field) (fs : List Field),
    (calcFields off l).2 = f :: fs → f.offset = alignTo off f.typ.alignment := by
  intro off l f fs h
  cases l with
  | nil => simp [calcFields] at h
  | cons pf rest =>
    simp only [calcFields] at h
    injection h with h1 h2
    subst h1
    rfl

/-- Helper: consecutive fields produced by the offset calculation satisfy
the cursor recurrence `F2.offset = align_to (F1.offset + F1.size) F2.align`. -/
theorem calcFields_chain : ∀ (off : Nat) (l : List ParsedField),
    List.Chain' (fun f1 f2 => f2.offset = alignTo (f1.offset + f1.typ.size) f2.typ.alignment)
      ((calcFields off l).2) := by
  intro off l
  induction l generalizing off with
  | nil => simp [calcFields]
  | cons pf rest ih =>
    simp only [calcFields]
    refine List.chain'_cons'.mpr ⟨?_, ih _⟩
    intro b hb
    cases hl : (calcFields (alignTo off pf.typ.alignment + pf.typ.size) rest).2 with
    | nil => rw [hl] at hb; simp at hb
    | cons g gs =>
      rw [hl] at hb
      simp only [List.head?_cons, Option.mem_def, Option.some.injEq] at hb
      subst hb
      exact calcFields_head _ rest _ _ hl

/-- Helper: the final cursor is the start cursor for an empty struct, and
the last field's end otherwise. -/
theorem calcFields_size : ∀ (off : Nat) (l : List ParsedField),
    ((calcFields off l).2 = [] → (calcFields off l).1 = off) ∧
    (∀ fl, ((calcFields off l).2).getLast? = some fl →
      (calcFields off l).1 = fl.offset + fl.typ.size) := by
  intro off l
  induction l generalizing off with
  | nil =>
    exact ⟨fun _ => rfl, fun fl h => by simp [calcFields] at h⟩
  | cons pf rest ih =>
    constructor
    · intro h
      simp [calcFields] at h
    · intro fl h
      simp only [calcFields] at h ⊢
      cases hl : (calcFields (alignTo off pf.typ.alignment + pf.typ.size) rest).2 with
      | nil =>
        rw [hl] at h
        simp only [List.getLast?_singleton, Option.some.injEq] at h
        subst h
        exact (ih (alignTo off pf.typ.alignment + pf.typ.size)).1 hl
      | cons g gs =>
        rw [hl, List.getLast?_cons_cons] at h
        exact (ih (alignTo off pf.typ.alignment + pf.typ.size)).2 fl (by rw [hl]; exact h)

/-- C7: for every parsed struct whose field alignments are positive (they
are `align_of` values in the source), the resolved layout satisfies: each
consecutive pair F1, F2 has `F2.offset = align_to (F1.offset + F1.size)
F2.alignment`, `F2.offset` a multiple of `F2.alignment` and
`F2.offset ≥ F1.offset + F1.size`; the first field sits at offset 0; and
the struct size is the cursor after the last field. -/
theorem calculateOffsets_layout_wf (ps : ParsedStruct)
    (hpos : ∀ pf ∈ ps.fields, 0 < pf.typ.alignment) :
    (∀ i (h1 : i < ps.calculateOffsets.fields.length)
        (h2 : i + 1 < ps.calculateOffsets.fields.length),
      (ps.calculateOffsets.fields.get ⟨i + 1, h2⟩).offset =
        alignTo ((ps.calculateOffsets.fields.get ⟨i, h1⟩).offset +
            (ps.calculateOffsets.fields.get ⟨i, h1⟩).typ.size)
          ((ps.calculateOffsets.fields.get ⟨i + 1, h2⟩).typ.alignment) ∧
      (ps.calculateOffsets.fields.get ⟨i + 1, h2⟩).offset %
          (ps.calculateOffsets.fields.get ⟨i + 1, h2⟩).typ.alignment = 0 ∧
      (ps.calculateOffsets.fields.get ⟨i, h1⟩).offset +
          (ps.calculateOffsets.fields.get ⟨i, h1⟩).typ.size ≤
        (ps.calculateOffsets.fields.get ⟨i + 1, h2⟩).offset) ∧
    (∀ f0, ps.calculateOffsets.fields.head? = some f0 → f0.offset = 0) ∧
    (ps.calculateOffsets.fields = [] → ps.calculateOffsets.size = 0) ∧
    (∀ fl, ps.calculateOffsets.fields.getLast? = some fl →
      ps.calculateOffsets.size = fl.offset + fl.typ.size) := by
  have hF : ps.calculateOffsets.fields = (calcFields 0 ps.fields).2 := rfl
  have hS : ps.calculateOffsets.size = (calcFields 0 ps.fields).1 := rfl
  rw [hF, hS]
  have hposF : ∀ g ∈ (calcFields 0 ps.fields).2, 0 < g.typ.alignment := by
    intro g hg
    have hmem : g.typ ∈ ((calcFields 0 ps.fields).2).map Field.typ :=
      List.mem_map_of_mem Field.typ hg
    rw [calcFields_typ_map] at hmem
    obtain ⟨pf, hpf, heq⟩ := List.mem_map.mp hmem
    rw [← heq]
    exact hpos pf hpf
  refine ⟨?_, ?_, ?_, ?_⟩
  · intro i h1 h2
    have hchain := List.chain'_iff_get.mp (calcFields_chain 0 ps.fields) i (by omega)
    have hchain2 : ((calcFields 0 ps.fields).2.get ⟨i + 1, h2⟩).offset =
        alignTo (((calcFields 0 ps.fields).2.get ⟨i, h1⟩).offset +
            ((calcFields 0 ps.fields).2.get ⟨i, h1⟩).typ.size)
          (((calcFields 0 ps.fields).2.get ⟨i + 1, h2⟩).typ.alignment) := hchain
    refine ⟨hchain2, ?_, ?_⟩
    · rw [hchain2]
      exact alignTo_mod_self _ _ (hposF _ (List.get_mem _ _ _))
    · rw [hchain2]
      exact le_alignTo _ _ (hposF _ (List.get_mem _ _ _))
  · intro f0 h0
    cases hl : (calcFields 0 ps.fields).2 with
    | nil => rw [hl] at h0; cases h0
    | cons g gs =>
      rw [hl] at h0
      simp only [List.head?_cons, Option.some.injEq] at h0
      subst h0
      rw [calcFields_head 0 ps.fields g gs hl, alignTo_zero]
  · intro h
    exact (calcFields_size 0 ps.fields).1 h
  · intro fl h
    exact (calcFields_size 0 ps.fields).2 fl h

/-- C7 witness: the layout theorem applied to the three-field `SharedData`
example struct (u32, time_t64, i8[64]); the struct size is the cursor after
the last field, offset 16 plus 64 bytes. -/
theorem calculateOffsets_layout_wf_witness :
    testSharedStruct.calculateOffsets.size =
      ({ name := "audio_fifo", offset := 16,
          typ := { size := 64, alignment := 1 } } : Field).offset +
      ({ name := "audio_fifo", offset := 16,
          typ := { size := 64, alignment := 1 } } : Field).typ.size :=
  (calculateOffsets_layout_wf testSharedStruct (by decide)).2.2.2
    { name := "audio_fifo", offset := 16, typ := { size := 64, alignment := 1 } } (by decide)

/-- C10: a successful `Monitor::read` implies the size fields stored in
shared memory equal the compiled sizes of `MonitorSharedData` (760 bytes)
and `MonitorTriggerData` (560 bytes); the two size assertions run after the
`valid` check and the staleness check, and any mismatch makes the read
fail. -/
theorem monitorRead_size_guarantee (sd : SharedDataRead) (td : TriggerDataRead)
    (stale : Bool) :
    (∀ st, monitorRead sd td stale = Except.ok st →
      sd.size = monitorSharedDataSize ∧ td.size = monitorTriggerDataSize ∧ st = (sd, td)) ∧
    (sd.valid = 0 → monitorRead sd td stale = Except.error ReadError.shmInvalid) ∧
    (sd.valid ≠ 0 → stale = true → monitorRead sd td stale = Except.error ReadError.staleMapping) ∧
    (sd.valid ≠ 0 → stale = false → sd.size ≠ monitorSharedDataSize →
      monitorRead sd td stale = Except.error ReadError.sharedSizeMismatch) ∧
    (sd.valid ≠ 0 → stale = false → sd.size = monitorSharedDataSize →
      td.size ≠ monitorTriggerDataSize →
      monitorRead sd td stale = Except.error ReadError.triggerSizeMismatch) ∧
    monitorSharedDataSize = 760 ∧ monitorTriggerDataSize = 560 := by
  refine ⟨?_, ?_, ?_, ?_, ?_, by decide, by decide⟩
  · intro st h
    unfold monitorRead at h
    split_ifs at h with h1 h2 h3 h4
    · rw [Except.ok.injEq] at h
      exact ⟨by omega, by omega, h.symm⟩
  · intro h1
    unfold monitorRead
    rw [if_pos h1]
  · intro h1 h2
    unfold monitorRead
    rw [if_neg h1, if_pos h2]
  · intro h1 h2 h3
    unfold monitorRead
    rw [if_neg h1, if_neg (by simp [h2]), if_pos h3]
  · intro h1 h2 h3 h4
    unfold monitorRead
    rw [if_neg h1, if_neg (by simp [h2]), if_neg (by simp [h3]), if_pos h4]

/-- C10 witness: the guarantee applied to concrete shared-memory bytes with
the correct sizes, valid flag set and a fresh inode. -/
theorem monitorRead_size_guarantee_witness :
    sampleSharedRead.size = monitorSharedDataSize ∧
    sampleTriggerRead.size = monitorTriggerDataSize ∧
    (sampleSharedRead, sampleTriggerRead) = (sampleSharedRead, sampleTriggerRead) :=
  (monitorRead_size_guarantee sampleSharedRead sampleTriggerRead false).1
    (sampleSharedRead, sampleTriggerRead) rfl

end ZmAidect
